import Mathlib

/-!
Verification development for the ModuMentor conversational-assistant repository.

Each definition below is a shallow embedding of a function from the Python
source (file and line references in the doc comments).  Machine-level concerns
absent from the logic (logging, wall-clock time, file persistence, network
I/O) are either dropped or made explicit parameters: oracles stand in for
tool execution and language-model calls, and `time.time()` becomes an
explicit `now` argument.

The file is organised as definitions first, then theorems.
-/

namespace ModuMentor

/-! ## Python string primitives

Lean's built-in `String.trim` / `String.splitOn` are implemented on byte
positions and do not reduce inside the kernel, so the Python string
operations used by the source are modelled directly on the character list of
the string (`String.data`), which does reduce. -/

/-- Character-list prefix test. -/
def charsStartsWith : List Char → List Char → Bool
  | _, [] => true
  | [], _ :: _ => false
  | c :: cs, d :: ds => c == d && charsStartsWith cs ds

/-- Character-list substring test. -/
def charsContains : List Char → List Char → Bool
  | [], sub => sub.isEmpty
  | c :: rest, sub => charsStartsWith (c :: rest) sub || charsContains rest sub

/-- Python's `sub in s` on strings. -/
def strContains (s sub : String) : Bool := charsContains s.data sub.data

/-- Python's `s.strip()` (the inputs in this development only carry ASCII
whitespace, where Python's and Lean's whitespace classes agree). -/
def pyStrip (s : String) : String :=
  String.mk (((s.data.dropWhile Char.isWhitespace).reverse.dropWhile
    Char.isWhitespace).reverse)

/-- Python's `s.lower()` (ASCII case mapping, which covers every string this
development evaluates). -/
def pyLower (s : String) : String := String.mk (s.data.map Char.toLower)

/-- Python's `s.startswith(pre)`. -/
def pyStartsWith (s pre : String) : Bool := charsStartsWith s.data pre.data

/-- Helper for `pySplitOnce`: scan for the first occurrence of `sep`. -/
def splitOnceAux (sep : List Char) : List Char → List Char →
    Option (List Char × List Char)
  | [], _ => none
  | c :: rest, acc =>
    if charsStartsWith (c :: rest) sep && !sep.isEmpty then
      some (acc.reverse, (c :: rest).drop sep.length)
    else splitOnceAux sep rest (c :: acc)

/-- Python's `s.split(sep, 1)`, as an Option: `some (before, after)` when the
(nonempty) separator occurs, `none` when it does not (in which case Python
returns the one-element list `[s]`). -/
def pySplitOnce (s sep : String) : Option (String × String) :=
  (splitOnceAux sep.data s.data []).map (fun p => (String.mk p.1, String.mk p.2))

/-- Helper for `pySplitOn`.  Each split consumes at least one character of
the scanned list, so the list's length bounds the number of splits; the fuel
argument makes that structural and its exhaustion branch is unreachable from
`pySplitOn`. -/
def splitAllAux (sep : List Char) : Nat → List Char → List Char →
    List (List Char)
  | _, [], acc => [acc.reverse]
  | 0, l, acc => [acc.reverse ++ l]
  | fuel + 1, c :: rest, acc =>
    if charsStartsWith (c :: rest) sep && !sep.isEmpty then
      acc.reverse :: splitAllAux sep fuel ((c :: rest).drop sep.length) []
    else splitAllAux sep fuel rest (c :: acc)

/-- Python's `s.split(sep)` for a nonempty separator. -/
def pySplitOn (s sep : String) : List String :=
  (splitAllAux sep.data s.data.length s.data []).map String.mk

/-! ## Tool registry (src/agents/tool_manager.py) -/

/-- A registered tool as seen by `ToolManager.select_tool`
(src/agents/tool_manager.py).  Only the name and the `can_handle` predicate
take part in selection; `can_handle` is Python code that may raise, modelled
with `Except` (the error value is the exception message). -/
structure RegTool where
  name : String
  can_handle : String → Except String Bool

/-- The suitable-tools collection loop of `select_tool`
(src/agents/tool_manager.py lines 33-39): evaluate `can_handle` for every
tool in list order, keeping those that answer true.  There is no try/except
in the source, so a raised exception propagates (short-circuits). -/
def collect_suitable (tools : List RegTool) (query : String) :
    Except String (List RegTool) :=
  match tools with
  | [] => Except.ok []
  | t :: ts => do
    let b ← t.can_handle query
    let rest ← collect_suitable ts query
    pure (if b then t :: rest else rest)

/-- The fixed priority list of `select_tool` (src/agents/tool_manager.py
line 44). -/
def priority_order : List String :=
  ["GoogleSheets", "Gmail", "Dictionary", "Lyrics", "AdvancedAI", "Weather", "WebSearch"]

/-- The double loop of `select_tool` (src/agents/tool_manager.py lines 46-50):
first priority name matched by any suitable tool wins; among suitable tools of
that name, the first in list order. -/
def pick_by_priority (suitable : List RegTool) : Option RegTool :=
  priority_order.findSome? (fun nm => suitable.find? (fun t => t.name == nm))

/-- `ToolManager.select_tool` (src/agents/tool_manager.py lines 28-59).
Collect the suitable tools; if any, pick by priority; if the priority loop
falls through (or nothing was suitable), default to the first tool named
"WebSearch"; otherwise `none`. -/
def select_tool (tools : List RegTool) (query : String) :
    Except String (Option RegTool) := do
  let suitable ← collect_suitable tools query
  match (if suitable.isEmpty then none else pick_by_priority suitable) with
  | some t => pure (some t)
  | none => pure (tools.find? (fun t => t.name == "WebSearch"))

/-- A registry consisting of just the fallback web-search adapter, whose
predicate declines every query without raising. -/
def ws_tool : RegTool := ⟨"WebSearch", fun _ => Except.ok false⟩

/-- A tool whose `can_handle` raises on every query. -/
def boom_tool : RegTool := ⟨"Boom", fun _ => Except.error "boom"⟩

/-! ## Workflow data model (src/agents/workflow_manager.py) -/

/-- `WorkflowStepType` (src/agents/workflow_manager.py lines 15-20). -/
inductive WorkflowStepType where
  | tool_execution
  | data_processing
  | conditional
  | notify_step
deriving DecidableEq

/-- `WorkflowStep` (src/agents/workflow_manager.py lines 23-33).  The Python
dataclass defaults `depends_on` to None and the executor only ever tests it
for emptiness and membership, so None is modelled as the empty list.
Parameter values in this repository are always strings, so `parameters` is a
string-to-string association list. -/
structure WorkflowStep where
  step_id : String
  step_type : WorkflowStepType
  tool_name : String
  action : String
  parameters : List (String × String)
  depends_on : List String := []
  condition : Option String := none
  output_variable : Option String := none
deriving DecidableEq

/-- `WorkflowResult` (src/agents/workflow_manager.py lines 36-45).
`execution_time` is wall-clock time and is not modelled. -/
structure WorkflowResult where
  success : Bool
  steps_completed : Nat
  total_steps : Nat
  results : List (String × String)
  final_output : String
  errors : List String

/-- The list comprehension `[s.step_id for s in sorted_steps]`. -/
def stepIds (l : List WorkflowStep) : List String := l.map (fun s => s.step_id)

/-- The eligibility test of `_sort_steps_by_dependencies`
(src/agents/workflow_manager.py line 352):
`not step.depends_on or all(dep in [s.step_id for s in sorted_steps] ...)`.
An empty `depends_on` (Python None or []) is vacuously ready via `List.all`,
which is exactly the Python disjunction. -/
def step_ready (sorted_ids : List String) (s : WorkflowStep) : Bool :=
  s.depends_on.all (fun d => sorted_ids.contains d)

/-- The while-loop of `_sort_steps_by_dependencies`
(src/agents/workflow_manager.py lines 348-364).  Each iteration either moves
at least one ready step from `remaining` to `sorted` or stalls (appends the
rest as-is, with a logged warning modelled by the Bool).  Because every
non-stalling iteration strictly shrinks `remaining`, `remaining.length`
bounds the number of iterations, which the `fuel` argument makes structural;
the fuel-exhaustion branch is unreachable from `sort_steps_by_dependencies`
(see `sort_go_no_stall`, which assumes exactly this bound). -/
def sort_go (fuel : Nat) (sorted : List WorkflowStep) (remaining : List WorkflowStep) :
    List WorkflowStep × Bool :=
  match remaining with
  | [] => (sorted, false)
  | _ :: _ =>
    match fuel with
    | 0 => (sorted ++ remaining, true)
    | f + 1 =>
      let ready := remaining.filter (step_ready (stepIds sorted))
      if ready.isEmpty then
        (sorted ++ remaining, true)
      else
        sort_go f (sorted ++ ready)
          (remaining.filter (fun s => !(step_ready (stepIds sorted) s)))

/-- `_sort_steps_by_dependencies` (src/agents/workflow_manager.py
lines 343-366).  The Bool records whether the circular/missing-dependency
warning branch (lines 355-359) was taken; the Python function only logs it.
Python removes each ready step from `remaining` by value equality; since
readiness is a function of a step's fields, that equals filtering by the
negated readiness test. -/
def sort_steps_by_dependencies (steps : List WorkflowStep) :
    List WorkflowStep × Bool :=
  sort_go steps.length [] steps

/-- A run order is dependency-respecting relative to a set of already-seen
step ids: each step's dependencies all lie among the seen ids, which grow as
the list is traversed. -/
def RespectsFrom (seen : List String) : List WorkflowStep → Prop
  | [] => True
  | s :: rest =>
    (∀ d ∈ s.depends_on, d ∈ seen) ∧ RespectsFrom (seen ++ [s.step_id]) rest

/-- Acyclicity of a workflow's id-level dependency graph, phrased as the
existence of a rank function that strictly decreases along `depends_on`
references (equivalent, for finite graphs, to the absence of cycles). -/
def AcyclicSteps (steps : List WorkflowStep) : Prop :=
  ∃ rank : String → Nat,
    ∀ s ∈ steps, ∀ d ∈ s.depends_on, rank d < rank s.step_id

/-- First step of the research-then-update workflow template
(src/agents/workflow_manager.py lines 178-186). -/
def research_step : WorkflowStep :=
  { step_id := "research", step_type := .tool_execution,
    tool_name := "WebSearch", action := "search",
    parameters := [("query", "ai trends"), ("max_results", "5")],
    depends_on := [], condition := none, output_variable := some "research_data" }

/-- Second step of the research-then-update workflow template
(src/agents/workflow_manager.py lines 187-197). -/
def update_sheet_step : WorkflowStep :=
  { step_id := "update_sheet", step_type := .tool_execution,
    tool_name := "GoogleSheets", action := "add_data",
    parameters := [("data_source", "research_data"), ("format", "structured")],
    depends_on := ["research"], condition := none, output_variable := none }

/-- A step depending on an id that no step in the workflow defines. -/
def dangling_step : WorkflowStep :=
  { step_id := "lonely", step_type := .tool_execution,
    tool_name := "WebSearch", action := "search",
    parameters := [("query", "q")],
    depends_on := ["ghost"], condition := none, output_variable := none }

/-! ## Workflow executor (src/agents/workflow_manager.py lines 202-262) -/

/-- Key-membership test on the `results` dict, mirroring Python's
`dep in results`. -/
def containsKey (m : List (String × String)) (k : String) : Bool :=
  m.any (fun p => p.1 == k)

/-- Python dict assignment `results[k] = v`: update in place if the key
exists (insertion order kept), else append. -/
def dict_insert (m : List (String × String)) (k v : String) :
    List (String × String) :=
  if containsKey m k then m.map (fun p => if p.1 == k then (k, v) else p)
  else m ++ [(k, v)]

/-- Python's `str` rendering of a list of strings, as interpolated into the
missing-dependencies error message. -/
def py_str_list (l : List String) : String :=
  "[" ++ String.intercalate ", " (l.map (fun x => "'" ++ x ++ "'")) ++ "]"

/-- The error string of src/agents/workflow_manager.py line 219. -/
def missing_deps_msg (s : WorkflowStep) (missing : List String) : String :=
  "Missing dependencies for step " ++ s.step_id ++ ": " ++ py_str_list missing

/-- The error string of src/agents/workflow_manager.py line 233. -/
def step_error_msg (s : WorkflowStep) (e : String) : String :=
  "Error in step " ++ s.step_id ++ ": " ++ e

/-- The executor's running state: the `results` dict, the `errors` list and
the `completed_steps` counter of `execute_workflow`. -/
structure ExecState where
  results : List (String × String)
  errors : List String
  completed : Nat
deriving DecidableEq

/-- One iteration of the per-step loop of `execute_workflow`
(src/agents/workflow_manager.py lines 213-235).  Actual tool invocation
(`_execute_step`, network I/O) is an oracle `exec`; `Except.error e` models a
raised exception with message `e`, caught by the per-step try/except. -/
def exec_step_update (exec : WorkflowStep → Except String String)
    (st : ExecState) (s : WorkflowStep) : ExecState :=
  let missing := s.depends_on.filter (fun d => !(containsKey st.results d))
  if !s.depends_on.isEmpty && !missing.isEmpty then
    { st with errors := st.errors ++ [missing_deps_msg s missing] }
  else
    match exec s with
    | Except.ok v =>
      let res1 := dict_insert st.results s.step_id v
      let res2 := match s.output_variable with
        | some ov => dict_insert res1 ov v
        | none => res1
      { results := res2, errors := st.errors, completed := st.completed + 1 }
    | Except.error e => { st with errors := st.errors ++ [step_error_msg s e] }

/-- The per-step loop of `execute_workflow` over the dependency-sorted step
list. -/
def exec_loop (exec : WorkflowStep → Except String String) :
    ExecState → List WorkflowStep → ExecState
  | st, [] => st
  | st, s :: rest => exec_loop exec (exec_step_update exec st s) rest

/-- `_generate_workflow_summary` (src/agents/workflow_manager.py
lines 425-465).  The language-model call is an oracle: `some text` is a
response with text (stripped, line 453), `none` covers a missing/empty
response or a raised exception, both of which fall through to the templated
summary. -/
def workflow_summary (ai : Option String) (steps : List WorkflowStep)
    (results : List (String × String)) (errors : List String) : String :=
  match ai with
  | some text => pyStrip text
  | none =>
    if !errors.isEmpty then
      "ðŸ”„ **Workflow Completed with Issues**\n\nâœ… " ++
        toString results.length ++ "/" ++ toString steps.length ++
        " steps completed\nâŒ " ++ toString errors.length ++
        " errors encountered\n\nSome tasks may need manual attention."
    else
      "ðŸŽ‰ **Workflow Completed Successfully!**\n\nâœ… All " ++
        toString steps.length ++
        " steps completed\nðŸš€ Your automated tasks have been executed successfully!"

/-- `execute_workflow` (src/agents/workflow_manager.py lines 202-262).
`execution_time` (wall clock) is not modelled; the outer try/except is dead
code here because every per-step exception is already caught by the inner
handler and the summary generator catches its own. -/
def execute_workflow (exec : WorkflowStep → Except String String)
    (ai_summary : Option String) (steps : List WorkflowStep) : WorkflowResult :=
  let sorted := (sort_steps_by_dependencies steps).1
  let st := exec_loop exec ⟨[], [], 0⟩ sorted
  { success := st.errors.isEmpty,
    steps_completed := st.completed,
    total_steps := steps.length,
    results := st.results,
    final_output := workflow_summary ai_summary steps st.results st.errors,
    errors := st.errors }

/-- The output variables declared by a list of steps. -/
def outVars (l : List WorkflowStep) : List String :=
  l.filterMap (fun s => s.output_variable)

/-- A step that succeeds, used in the C5 witness. -/
def ok_step : WorkflowStep :=
  { step_id := "a", step_type := .tool_execution,
    tool_name := "Weather", action := "get_weather",
    parameters := [("location", "Paris")],
    depends_on := [], condition := none, output_variable := none }

/-- A step whose execution raises, used in the C5 witness. -/
def failing_step : WorkflowStep :=
  { step_id := "b", step_type := .tool_execution,
    tool_name := "Gmail", action := "send_email",
    parameters := [("recipient", "team")],
    depends_on := ["a"], condition := none, output_variable := none }

/-- A concrete execution oracle: step "b" raises, everything else returns. -/
def demo_exec : WorkflowStep → Except String String :=
  fun t => if t.step_id == "b" then Except.error "boom" else Except.ok "sunny"

/-! ## AI workflow response parser (src/agents/workflow_manager.py
lines 511-546) -/

/-- Parsing of one enumerated line of the model response
(src/agents/workflow_manager.py lines 517-533).  `i` is the line's index in
`enumerate(lines)`.  A line not starting (after strip) with "STEP", a line
without a colon (Python IndexError, caught and logged at line 536), and a
line whose remainder lacks " - " (len(parts) != 2) all yield no step. -/
def parse_step_line (i : Nat) (line : String) (original_query : String) :
    Option WorkflowStep :=
  if pyStartsWith (pyStrip line) "STEP" then
    match pySplitOnce line ":" with
    | none => none
    | some (_, after) =>
      match pySplitOnce (pyStrip after) " - " with
      | none => none
      | some (tool, desc) =>
        some { step_id := "step_" ++ toString (i + 1),
               step_type := WorkflowStepType.tool_execution,
               tool_name := pyStrip tool,
               action := pyStrip desc,
               parameters := [("query", original_query)],
               depends_on := if i > 0 then ["step_" ++ toString i] else [],
               condition := none,
               output_variable := none }
  else none

/-- The `for i, line in enumerate(lines)` loop of
`_parse_ai_workflow_response`. -/
def parse_lines_from (original_query : String) : Nat → List String →
    List WorkflowStep
  | _, [] => []
  | i, line :: rest =>
    match parse_step_line i line original_query with
    | some st => st :: parse_lines_from original_query (i + 1) rest
    | none => parse_lines_from original_query (i + 1) rest

/-- The single-step fallback workflow of `_parse_ai_workflow_response`
(src/agents/workflow_manager.py lines 538-546). -/
def fallback_single_step (original_query : String) : WorkflowStep :=
  { step_id := "fallback", step_type := .tool_execution,
    tool_name := "WebSearch", action := "search",
    parameters := [("query", original_query)],
    depends_on := [], condition := none, output_variable := none }

/-- `_parse_ai_workflow_response` (src/agents/workflow_manager.py
lines 511-546). -/
def parse_ai_workflow_response (response original_query : String) :
    List WorkflowStep :=
  let lines := pySplitOn (pyStrip response) "\n"
  let steps := parse_lines_from original_query 0 lines
  if steps.isEmpty then [fallback_single_step original_query] else steps

/-! ## Conversation memory (src/utils/conversation_memory.py) -/

/-- `Message` (src/utils/conversation_memory.py lines 13-19).  Timestamps
(Python floats from `time.time()`) are modelled as integers; only their
ordering and differences matter to the logic. -/
structure Message where
  role : String
  content : String
  timestamp : Int
  user_id : String
deriving DecidableEq

/-- `Conversation` (src/utils/conversation_memory.py lines 22-28). -/
structure Conversation where
  user_id : String
  messages : List Message
  created_at : Int
  last_updated : Int
deriving DecidableEq

/-- `Conversation.add_message` (src/utils/conversation_memory.py
lines 30-39), with `time.time()` passed in as `now`. -/
def Conversation.add_message (c : Conversation) (role content : String)
    (now : Int) : Conversation :=
  { c with
    messages := c.messages ++
      [{ role := role, content := content, timestamp := now,
         user_id := c.user_id }],
    last_updated := now }

/-- `Conversation.clear_old_messages` (src/utils/conversation_memory.py
lines 58-61). -/
def Conversation.clear_old_messages (c : Conversation) (max_age_hours : Int)
    (now : Int) : Conversation :=
  let cutoff := now - max_age_hours * 3600
  { c with messages := c.messages.filter (fun m => decide (cutoff < m.timestamp)) }

/-- `ConversationMemory`'s state (src/utils/conversation_memory.py
lines 64-78).  The conversations dict is an insertion-ordered association
list, as in CPython.  File persistence (`storage_file`, `_load_conversations`,
`_save_conversations`) is I/O and is not modelled: the store starts empty. -/
structure ConversationMemory where
  conversations : List (String × Conversation)
  max_conversations : Nat
  max_messages_per_conversation : Nat
deriving DecidableEq

/-- The constructor defaults of `ConversationMemory.__init__`
(src/utils/conversation_memory.py line 67): `max_conversations=1000`,
`max_messages_per_conversation=100`. -/
def mkConversationMemory (max_conversations : Nat := 1000)
    (max_messages_per_conversation : Nat := 100) : ConversationMemory :=
  ⟨[], max_conversations, max_messages_per_conversation⟩

/-- Dictionary lookup `self.conversations[user_id]` (as an Option). -/
def lookup_conversation (mem : ConversationMemory) (uid : String) :
    Option Conversation :=
  (mem.conversations.find? (fun p => p.1 == uid)).map Prod.snd

/-- `get_or_create_conversation` (src/utils/conversation_memory.py
lines 141-153), returning the updated store together with the conversation. -/
def get_or_create_conversation (mem : ConversationMemory) (uid : String)
    (now : Int) : ConversationMemory × Conversation :=
  match lookup_conversation mem uid with
  | some c => (mem, c)
  | none =>
    let c : Conversation :=
      { user_id := uid, messages := [], created_at := now, last_updated := now }
    ({ mem with conversations := mem.conversations ++ [(uid, c)] }, c)

/-- `_cleanup_conversation` (src/utils/conversation_memory.py lines 197-206):
trim to the most recent `max_messages` when over the cap, then drop messages
older than 24 hours.  Python's `lst[-n:]` is the last `n` elements except for
`n = 0`, where `lst[-0:]` is the whole list, reproduced here. -/
def cleanup_conversation (max_messages : Nat) (c : Conversation) (now : Int) :
    Conversation :=
  let trimmed :=
    if c.messages.length > max_messages then
      if max_messages = 0 then c.messages
      else c.messages.drop (c.messages.length - max_messages)
    else c.messages
  Conversation.clear_old_messages { c with messages := trimmed } 24 now

/-- Mutation of the stored conversation object (in Python the dict holds a
reference, so mutating the object updates the store in place). -/
def store_conversation (mem : ConversationMemory) (uid : String)
    (c : Conversation) : ConversationMemory :=
  { mem with
    conversations := mem.conversations.map
      (fun p => if p.1 == uid then (uid, c) else p) }

/-- `add_user_message` (src/utils/conversation_memory.py lines 155-161):
get-or-create, append, cleanup.  `_save_conversations` is file I/O and is not
modelled. -/
def add_user_message (mem : ConversationMemory) (uid msg : String)
    (now : Int) : ConversationMemory :=
  let pair := get_or_create_conversation mem uid now
  let c1 := pair.2.add_message "user" msg now
  let c2 := cleanup_conversation mem.max_messages_per_conversation c1 now
  store_conversation pair.1 uid c2

/-- The message list currently stored for a user (empty if the user has no
conversation). -/
def user_messages (mem : ConversationMemory) (uid : String) : List Message :=
  match lookup_conversation mem uid with
  | some c => c.messages
  | none => []

/-- `n` consecutive `add_user_message` calls with content "hello" on a
default-constructed store. -/
def add_n_hello : Nat → ConversationMemory
  | 0 => mkConversationMemory
  | n + 1 => add_user_message (add_n_hello n) "u" "hello" 0

/-- A concrete store at its cap, used in the C6 witness. -/
def demo_mem : ConversationMemory :=
  { conversations :=
      [("u", { user_id := "u",
               messages := [⟨"user", "a", 1, "u"⟩, ⟨"assistant", "b", 2, "u"⟩],
               created_at := 1, last_updated := 2 })],
    max_conversations := 1000,
    max_messages_per_conversation := 2 }

/-! ## Conversation analysis (src/utils/conversation_memory.py
lines 242-401) -/

/-- `" ".join(msg.content.lower() for ...)` as used by the topic and
sentiment extractors (lines 307 and 339). -/
def join_contents (msgs : List Message) : String :=
  String.intercalate " " (msgs.map (fun m => pyLower m.content))

/-- The topic keyword table of `_extract_topics_from_messages`
(src/utils/conversation_memory.py lines 311-321), in dict insertion order. -/
def topic_keywords : List (String × List String) :=
  [("Weather", ["weather", "temperature", "forecast", "climate", "rain", "sunny", "cloudy"]),
   ("Email", ["email", "mail", "send", "compose", "inbox", "outbox"]),
   ("Spreadsheets", ["sheet", "spreadsheet", "excel", "google sheets", "data", "update"]),
   ("Web Search", ["search", "find", "lookup", "research", "information"]),
   ("Dictionary", ["define", "meaning", "word", "dictionary", "definition"]),
   ("Lyrics", ["lyrics", "song", "music", "artist", "album"]),
   ("Technical", ["code", "programming", "bug", "error", "fix", "debug"]),
   ("Business", ["meeting", "client", "project", "business", "work"]),
   ("General", ["hello", "hi", "how are you", "thanks", "thank you"])]

/-- `_extract_topics_from_messages` (src/utils/conversation_memory.py
lines 305-331). -/
def extract_topics_from_messages (messages : List Message) : List String :=
  let all_content := join_contents messages
  let topics := (topic_keywords.filter
    (fun tk => tk.2.any (fun kw => strContains all_content kw))).map Prod.fst
  if topics.isEmpty then ["General conversation"] else topics

/-- Positive keywords of `_analyze_sentiment` (line 335). -/
def positive_words : List String :=
  ["good", "great", "excellent", "amazing", "wonderful", "perfect", "love",
   "like", "thanks", "thank you", "helpful", "awesome"]

/-- Negative keywords of `_analyze_sentiment` (line 336). -/
def negative_words : List String :=
  ["bad", "terrible", "awful", "hate", "dislike", "problem", "error", "wrong",
   "fail", "broken", "sad", "angry"]

/-- Question keywords of `_analyze_sentiment` (line 337). -/
def question_words : List String :=
  ["what", "how", "why", "when", "where", "who", "which", "?"]

/-- The record returned by `_analyze_sentiment`.  `total_words` is computed
by the source but never returned, so it is not modelled. -/
structure SentimentResult where
  positive_score : Nat
  negative_score : Nat
  question_count : Nat
  overall_sentiment : String
  engagement_level : String
deriving DecidableEq

/-- `_analyze_sentiment` (src/utils/conversation_memory.py lines 333-353):
counts of the keyword lists hitting the joined lowercase content. -/
def analyze_sentiment (messages : List Message) : SentimentResult :=
  let all_content := join_contents messages
  let p := (positive_words.filter (fun w => strContains all_content w)).length
  let n := (negative_words.filter (fun w => strContains all_content w)).length
  let q := (question_words.filter (fun w => strContains all_content w)).length
  { positive_score := p, negative_score := n, question_count := q,
    overall_sentiment :=
      if p > n then "positive" else if n > p then "negative" else "neutral",
    engagement_level :=
      if q > 3 then "high" else if q > 1 then "medium" else "low" }

/-- `_generate_insights` (src/utils/conversation_memory.py lines 355-401). -/
def generate_insights (messages : List Message) (topics : List String)
    (sentiment : SentimentResult) : List String :=
  let i1 := if messages.length > 10 then
      "Active conversation with substantial message exchange"
    else if messages.length > 5 then "Moderate conversation activity"
    else "Brief conversation session"
  let i2 := if topics.length > 3 then "Diverse range of topics discussed"
    else if topics.length > 1 then "Multiple topics covered"
    else "Focused on single topic"
  let i3 := if sentiment.overall_sentiment = "positive" then
      "Generally positive interaction"
    else if sentiment.overall_sentiment = "negative" then
      "Some negative sentiment detected"
    else "Neutral conversation tone"
  let i4 := if sentiment.engagement_level = "high" then
      "High user engagement with many questions"
    else if sentiment.engagement_level = "medium" then "Moderate user engagement"
    else "Low question engagement"
  let base := [i1, i2, i3, i4]
  match messages.head?, messages.getLast? with
  | some first, some last =>
    let time_span := last.timestamp - first.timestamp
    base ++ [if time_span > 3600 then "Extended conversation session"
      else if time_span > 300 then "Sustained conversation"
      else "Quick interaction"]
  | _, _ => base

/-- The slice of the `analyze_conversation` return record that the claims
examine.  The wall-clock presentation fields (formatted start/end times,
duration in hours, `recent_context`, truncated `recent_messages`) are
rendering of timestamps and are not modelled; the analytical fields are.  On
the has_conversation = false paths only `message` is populated, as in the
source. -/
structure AnalysisResult where
  has_conversation : Bool
  message : Option String
  total_messages : Nat
  user_message_count : Nat
  assistant_message_count : Nat
  topics : Option (List String)
  sentiment : Option SentimentResult
  insights : Option (List String)
deriving DecidableEq

/-- `analyze_conversation` (src/utils/conversation_memory.py lines 242-303). -/
def analyze_conversation (mem : ConversationMemory) (uid : String) :
    AnalysisResult :=
  match lookup_conversation mem uid with
  | none =>
    { has_conversation := false,
      message := some "No conversation history found for this user.",
      total_messages := 0, user_message_count := 0, assistant_message_count := 0,
      topics := none, sentiment := none, insights := none }
  | some c =>
    if c.messages.isEmpty then
      { has_conversation := false,
        message := some "No messages in conversation history.",
        total_messages := 0, user_message_count := 0, assistant_message_count := 0,
        topics := none, sentiment := none, insights := none }
    else
      let messages := c.messages
      let topics := extract_topics_from_messages messages
      let sentiment := analyze_sentiment messages
      let insights := generate_insights messages topics sentiment
      { has_conversation := true,
        message := none,
        total_messages := messages.length,
        user_message_count := (messages.filter (fun m => m.role == "user")).length,
        assistant_message_count :=
          (messages.filter (fun m => m.role == "assistant")).length,
        topics := some topics, sentiment := some sentiment,
        insights := some insights }

/-- A store holding one conversation whose only message is "hello". -/
def hello_mem : ConversationMemory :=
  { conversations :=
      [("u", { user_id := "u", messages := [⟨"user", "hello", 0, "u"⟩],
               created_at := 0, last_updated := 0 })],
    max_conversations := 1000,
    max_messages_per_conversation := 50 }

/-! ## Orchestrator response validation (src/agents/intelligent_agent.py) -/

/-- Outcome of one `model.generate_content` call: a response with text, a
response with no/empty text, or a raised exception with its message. -/
inductive LlmOutcome where
  | text (s : String)
  | empty
  | exn (msg : String)

/-- `config.MAX_MESSAGE_LENGTH` (src/config.py line 68). -/
def MAX_MESSAGE_LENGTH : Nat := 4096

/-- `_format_response` (src/agents/intelligent_agent.py lines 611-624):
truncate over-long responses, strip, and append a friendly emoji when none of
the known emojis occurs. -/
def format_response (response : String) : String :=
  let r1 := if response.length > MAX_MESSAGE_LENGTH - 100 then
      String.mk (response.data.take (MAX_MESSAGE_LENGTH - 100)) ++ "..."
    else response
  let r2 := pyStrip r1
  if !(["😊", "🤖", "👍", "💡", "🔍", "📚", "🌤️"].any
      (fun e => strContains r2 e)) then
    r2 ++ " 😊"
  else r2

/-- `_format_general_quota_exceeded_response`
(src/agents/intelligent_agent.py lines 333-359); its inner try body cannot
raise, so the except branch is dead. -/
def format_general_quota_exceeded_response (query : String) : String :=
  "I understand you're asking about: " ++ query ++ "\n\n" ++
  "💡 **Suggestions:**\n" ++
  "• Try asking for specific information like weather, definitions, or web searches\n" ++
  "• Use commands like 'define [word]' or 'weather in [city]'\n" ++
  "• Ask me to search for specific information\n\n" ++
  "🔧 **Current Status:**\n" ++
  "• API quota has been reached for today\n" ++
  "• Tool-based queries (weather, dictionary, search) still work\n" ++
  "• Enhanced analysis will be available when quota resets\n\n" ++
  "📋 **Available Commands:**\n" ++
  "• `/help` - Show available features\n" ++
  "• `/stats` - View conversation statistics\n" ++
  "• `/clear` - Clear conversation history"

/-- `_handle_general_query` (src/agents/intelligent_agent.py lines 278-331).
The quota monitor's answer and the model call are oracles; the conversation
context only feeds the prompt, never the returned string, so it is not a
parameter. -/
def handle_general_query (quota_ok : Bool) (llm : LlmOutcome)
    (query : String) : String :=
  if !quota_ok then format_general_quota_exceeded_response query
  else match llm with
  | LlmOutcome.text t =>
    let formatted := format_response t
    if !(pyStrip formatted == "") &&
        !(pyLower (pyStrip formatted) == pyLower query) then
      formatted
    else
      "I understand you're asking about something, but I'm having trouble formulating a proper response. Could you please rephrase your question? 😊"
  | LlmOutcome.empty =>
    "I'm having trouble generating a response right now. Please try again! 🤖"
  | LlmOutcome.exn msg =>
    let em := pyLower msg
    if strContains em "quota" || strContains em "429" || strContains em "exceeded" then
      format_general_quota_exceeded_response query
    else
      "I'm experiencing some technical difficulties. Please try again in a moment! 🔧"

/-- The post-handling validation tail of `process_message`
(src/agents/intelligent_agent.py lines 163-177): given the cleaned (stripped)
input and the handling path's result, replace an empty result with the fixed
apology, and re-attempt a lowercase echo of the input through the
direct-language-model branch with a rephrased prompt; otherwise return the
result (memory writes are state, not part of the returned string). -/
def process_message_validate (cleaned result : String) (quota_ok : Bool)
    (llm : LlmOutcome) : String :=
  if pyStrip result == "" then
    "I'm having trouble generating a response. Could you please try rephrasing your question? 🤖"
  else if pyLower (pyStrip result) == pyLower cleaned then
    handle_general_query quota_ok llm ("Please help me understand: " ++ cleaned)
  else result

/-! ## Theorems -/

/-- If every `can_handle` returns normally, the collection loop returns
normally. -/
theorem collect_suitable_ok (tools : List RegTool) (query : String)
    (hok : ∀ t ∈ tools, ∃ b, t.can_handle query = Except.ok b) :
    ∃ l, collect_suitable tools query = Except.ok l := by
  induction tools with
  | nil => exact ⟨[], rfl⟩
  | cons t ts ih =>
    obtain ⟨b, hb⟩ := hok t (List.mem_cons_self t ts)
    obtain ⟨l, hl⟩ := ih (fun u hu => hok u (List.mem_cons_of_mem t hu))
    refine ⟨if b then t :: l else l, ?_⟩
    simp only [collect_suitable, hb, hl]
    rfl

/-- If some tool's `can_handle` raises, the collection loop raises. -/
theorem collect_suitable_error (tools : List RegTool) (query : String)
    (h : ∃ t ∈ tools, ∃ e, t.can_handle query = Except.error e) :
    ∃ e, collect_suitable tools query = Except.error e := by
  induction tools with
  | nil => simp at h
  | cons t ts ih =>
    rcases hcall : t.can_handle query with e | b
    · exact ⟨e, by simp only [collect_suitable, hcall]; rfl⟩
    · obtain ⟨u, hu, e, he⟩ := h
      rcases List.mem_cons.mp hu with rfl | hmem
      · rw [hcall] at he; cases he
      · obtain ⟨e, hrec⟩ := ih ⟨u, hmem, e, he⟩
        exact ⟨e, by simp only [collect_suitable, hcall, hrec]; rfl⟩

/-- Unfolding of `select_tool` once the collection loop's value is known. -/
theorem select_tool_eq_of_collect (tools : List RegTool) (query : String)
    (l : List RegTool) (hl : collect_suitable tools query = Except.ok l) :
    select_tool tools query =
      (match (if l.isEmpty then none else pick_by_priority l) with
       | some t => Except.ok (some t)
       | none => Except.ok (tools.find? (fun t => t.name == "WebSearch"))) := by
  simp only [select_tool, hl]
  rfl

/-- C1: as long as a tool named "WebSearch" is registered and every
`can_handle` returns normally on the query, `select_tool` returns a tool
(for any query, even one no predicate claims); and it returns `none` only
when no tool named "WebSearch" is registered. -/
theorem C1_select_tool_fallback (tools : List RegTool) (query : String)
    (hok : ∀ t ∈ tools, ∃ b, t.can_handle query = Except.ok b) :
    ((∃ t ∈ tools, t.name = "WebSearch") →
      ∃ t, select_tool tools query = Except.ok (some t)) ∧
    (select_tool tools query = Except.ok none →
      ∀ t ∈ tools, t.name ≠ "WebSearch") := by
  obtain ⟨l, hl⟩ := collect_suitable_ok tools query hok
  have hsel := select_tool_eq_of_collect tools query l hl
  constructor
  · rintro ⟨w, hw, hname⟩
    rcases hp : (if l.isEmpty then none else pick_by_priority l) with _ | t
    · have h1 : (tools.find? (fun t => t.name == "WebSearch")).isSome :=
        List.find?_isSome.mpr ⟨w, hw, by simp [hname]⟩
      obtain ⟨t', ht'⟩ := Option.isSome_iff_exists.mp h1
      refine ⟨t', ?_⟩
      rw [hsel, hp, ht']
    · exact ⟨t, by rw [hsel, hp]⟩
  · intro hnone t ht hname
    rw [hsel] at hnone
    rcases hp : (if l.isEmpty then none else pick_by_priority l) with _ | t'
    · rw [hp] at hnone
      simp only [Except.ok.injEq] at hnone
      have := List.find?_eq_none.mp hnone t ht
      simp [hname] at this
    · rw [hp] at hnone
      simp at hnone

/-- Witness for C1: with only the fallback registered and a nonsense query
that no predicate claims, `select_tool` still returns a tool. -/
theorem C1_select_tool_fallback_witness :
    (∀ t ∈ [ws_tool], ∃ b, t.can_handle "xyzzy nonsense" = Except.ok b) ∧
    (∃ t ∈ [ws_tool], t.name = "WebSearch") ∧
    (∃ t, select_tool [ws_tool] "xyzzy nonsense" = Except.ok (some t)) := by
  have hok : ∀ t ∈ [ws_tool], ∃ b, t.can_handle "xyzzy nonsense" = Except.ok b := by
    intro t ht
    simp only [List.mem_singleton] at ht
    subst ht
    exact ⟨false, rfl⟩
  have hws : ∃ t ∈ [ws_tool], t.name = "WebSearch" := ⟨ws_tool, by simp, rfl⟩
  exact ⟨hok, hws, (C1_select_tool_fallback [ws_tool] "xyzzy nonsense" hok).1 hws⟩

/-- C4 counterexample: the source has no try/except around `can_handle`
(src/agents/tool_manager.py lines 33-39), so with a single registered tool
whose predicate raises, the exception comes straight out of `select_tool`
instead of being treated as false. -/
theorem C4_counterexample_exception_escapes :
    select_tool [boom_tool] "any query" = Except.error "boom" := rfl

/-- C4 amended: if any registered tool's `can_handle` raises when evaluated by
`select_tool`, the exception propagates out of `select_tool` (the predicate is
not treated as false and no selection is made). -/
theorem C4_can_handle_exception_propagates (tools : List RegTool) (query : String)
    (h : ∃ t ∈ tools, ∃ e, t.can_handle query = Except.error e) :
    ∃ e, select_tool tools query = Except.error e := by
  obtain ⟨e, he⟩ := collect_suitable_error tools query h
  refine ⟨e, ?_⟩
  simp only [select_tool, he]
  rfl

/-- Witness for the amended C4 at a concrete registry. -/
theorem C4_can_handle_exception_witness :
    (∃ t ∈ [boom_tool], ∃ e, t.can_handle "hello" = Except.error e) ∧
    (∃ e, select_tool [boom_tool] "hello" = Except.error e) :=
  ⟨⟨boom_tool, by simp, "boom", rfl⟩,
   C4_can_handle_exception_propagates [boom_tool] "hello"
     ⟨boom_tool, by simp, "boom", rfl⟩⟩

/-- The run order computed by `sort_go` is a permutation of
`sorted ++ remaining`, whatever the fuel. -/
theorem sort_go_perm (fuel : Nat) (sorted remaining : List WorkflowStep) :
    (sort_go fuel sorted remaining).1.Perm (sorted ++ remaining) := by
  induction fuel generalizing sorted remaining with
  | zero => cases remaining <;> simp [sort_go]
  | succ n ih =>
    cases remaining with
    | nil => simp [sort_go]
    | cons r rs =>
      by_cases h : ((r :: rs).filter (step_ready (stepIds sorted))).isEmpty
      · simp [sort_go, h]
      · have step := ih (sorted ++ (r :: rs).filter (step_ready (stepIds sorted)))
          ((r :: rs).filter (fun s => !(step_ready (stepIds sorted) s)))
        have hperm :
            ((sorted ++ (r :: rs).filter (step_ready (stepIds sorted))) ++
              (r :: rs).filter (fun s => !(step_ready (stepIds sorted) s))).Perm
              (sorted ++ r :: rs) := by
          rw [List.append_assoc]
          exact List.Perm.append_left sorted
            (List.filter_append_perm (step_ready (stepIds sorted)) (r :: rs))
        have : (sort_go (n + 1) sorted (r :: rs)) =
            sort_go n (sorted ++ (r :: rs).filter (step_ready (stepIds sorted)))
              ((r :: rs).filter (fun s => !(step_ready (stepIds sorted) s))) := by
          simp [sort_go, h]
        rw [this]
        exact step.trans hperm

/-- C10: for every list of WorkflowSteps — including ones with cyclic or
dangling `depends_on` references — the run order produced by
`_sort_steps_by_dependencies` is a permutation of the input list, so the
executor neither drops nor duplicates steps. -/
theorem C10_sort_is_permutation (steps : List WorkflowStep) :
    (sort_steps_by_dependencies steps).1.Perm steps := by
  have h := sort_go_perm steps.length [] steps
  simpa [sort_steps_by_dependencies] using h

theorem RespectsFrom.mono {seen seen2 : List String}
    (hsub : ∀ x ∈ seen, x ∈ seen2) :
    ∀ {l : List WorkflowStep}, RespectsFrom seen l → RespectsFrom seen2 l := by
  intro l
  induction l generalizing seen seen2 with
  | nil => intro _; trivial
  | cons s rest ih =>
    rintro ⟨hdeps, hrest⟩
    refine ⟨fun d hd => hsub d (hdeps d hd), ?_⟩
    refine ih ?_ hrest
    intro x hx
    rcases List.mem_append.mp hx with h | h
    · exact List.mem_append.mpr (Or.inl (hsub x h))
    · exact List.mem_append.mpr (Or.inr h)

theorem RespectsFrom.append {seen : List String} {l1 l2 : List WorkflowStep}
    (h1 : RespectsFrom seen l1) (h2 : RespectsFrom (seen ++ stepIds l1) l2) :
    RespectsFrom seen (l1 ++ l2) := by
  induction l1 generalizing seen with
  | nil => simpa [stepIds] using h2
  | cons s rest ih =>
    obtain ⟨hdeps, hrest⟩ := h1
    refine ⟨hdeps, ih hrest ?_⟩
    have : (seen ++ [s.step_id]) ++ stepIds rest = seen ++ stepIds (s :: rest) := by
      simp [stepIds]
    rw [this]
    exact h2

/-- A batch of steps all of whose dependencies lie among the seen ids is
dependency-respecting in any order. -/
theorem RespectsFrom.of_all {seen : List String} {l : List WorkflowStep}
    (h : ∀ s ∈ l, ∀ d ∈ s.depends_on, d ∈ seen) : RespectsFrom seen l := by
  induction l generalizing seen with
  | nil => trivial
  | cons s rest ih =>
    refine ⟨h s (List.mem_cons_self s rest), ?_⟩
    have hrest : RespectsFrom seen rest :=
      ih (fun t ht d hd => h t (List.mem_cons_of_mem s ht) d hd)
    exact hrest.mono (fun x hx => List.mem_append.mpr (Or.inl hx))

/-- When the sort does not stall, its output is dependency-respecting:
every step appears only after all the ids it depends on. -/
theorem sort_go_respects (fuel : Nat) (sorted remaining : List WorkflowStep)
    (hs : RespectsFrom [] sorted)
    (hflag : (sort_go fuel sorted remaining).2 = false) :
    RespectsFrom [] (sort_go fuel sorted remaining).1 := by
  induction fuel generalizing sorted remaining with
  | zero =>
    cases remaining with
    | nil => simpa [sort_go] using hs
    | cons r rs => simp [sort_go] at hflag
  | succ n ih =>
    cases remaining with
    | nil => simpa [sort_go] using hs
    | cons r rs =>
      by_cases h : ((r :: rs).filter (step_ready (stepIds sorted))).isEmpty
      · simp [sort_go, h] at hflag
      · have hgo : sort_go (n + 1) sorted (r :: rs) =
            sort_go n (sorted ++ (r :: rs).filter (step_ready (stepIds sorted)))
              ((r :: rs).filter (fun s => !(step_ready (stepIds sorted) s))) := by
          simp [sort_go, h]
        rw [hgo] at hflag ⊢
        refine ih _ _ ?_ hflag
        refine hs.append (RespectsFrom.of_all ?_)
        intro s hsmem d hd
        have hready := (List.mem_filter.mp hsmem).2
        have := (List.all_eq_true.mp hready) d hd
        simp only [List.contains, List.elem_eq_mem, decide_eq_true_eq] at this
        rw [List.nil_append]
        exact this

/-- Reading a positional dependency guarantee out of `RespectsFrom`: a step's
dependencies all occur among the ids of strictly earlier steps. -/
theorem RespectsFrom.dep_in_prefix {seen : List String} :
    ∀ {pre : List WorkflowStep} {s : WorkflowStep} {post l : List WorkflowStep},
      RespectsFrom seen l → l = pre ++ s :: post →
      ∀ d ∈ s.depends_on, d ∈ seen ++ stepIds pre := by
  intro pre
  induction pre generalizing seen with
  | nil =>
    rintro s post l hresp rfl d hd
    exact List.mem_append.mpr (Or.inl (hresp.1 d hd))
  | cons p pre ih =>
    rintro s post l hresp rfl d hd
    obtain ⟨_, hrest⟩ := hresp
    have := ih hrest rfl d hd
    simpa [stepIds, List.append_assoc] using this

/-- Any nonempty list has an element minimizing a Nat-valued function. -/
theorem exists_nat_argmin {α : Type} (f : α → Nat) :
    ∀ (l : List α), l ≠ [] → ∃ a ∈ l, ∀ b ∈ l, f a ≤ f b := by
  intro l
  induction l with
  | nil => intro h; exact absurd rfl h
  | cons x xs ih =>
    intro _
    cases xs with
    | nil => exact ⟨x, by simp, by simp⟩
    | cons y ys =>
      obtain ⟨a, ha, hmin⟩ := ih (by simp)
      by_cases hxa : f x ≤ f a
      · refine ⟨x, by simp, ?_⟩
        intro b hb
        rcases List.mem_cons.mp hb with rfl | hb
        · exact le_refl _
        · exact le_trans hxa (hmin b hb)
      · refine ⟨a, List.mem_cons_of_mem x ha, ?_⟩
        intro b hb
        rcases List.mem_cons.mp hb with rfl | hb
        · exact le_of_lt (lt_of_not_le hxa)
        · exact hmin b hb

/-- With an acyclic dependency graph, all of whose referenced ids exist among
the not-yet-sorted or already-sorted steps, the sort never takes the
circular-dependency warning branch (given enough fuel, which the entry point
supplies). -/
theorem sort_go_no_stall (rank : String → Nat) (fuel : Nat)
    (sorted remaining : List WorkflowStep)
    (hfuel : remaining.length ≤ fuel)
    (hrank : ∀ s ∈ remaining, ∀ d ∈ s.depends_on, rank d < rank s.step_id)
    (hpres : ∀ s ∈ remaining, ∀ d ∈ s.depends_on,
      d ∈ stepIds sorted ∨ d ∈ stepIds remaining) :
    (sort_go fuel sorted remaining).2 = false := by
  induction fuel generalizing sorted remaining with
  | zero =>
    have : remaining = [] := List.length_eq_zero.mp (Nat.le_zero.mp hfuel)
    subst this
    simp [sort_go]
  | succ n ih =>
    cases remaining with
    | nil => simp [sort_go]
    | cons r rs =>
      obtain ⟨m, hm, hmin⟩ :=
        exists_nat_argmin (fun s => rank s.step_id) (r :: rs) (by simp)
      have hmready : step_ready (stepIds sorted) m = true := by
        rw [step_ready, List.all_eq_true]
        intro d hd
        rcases hpres m hm d hd with hin | hin
        · simp only [List.contains, List.elem_eq_mem, decide_eq_true_eq]
          exact hin
        · exfalso
          obtain ⟨t, ht, hid⟩ := List.mem_map.mp hin
          have h1 : rank m.step_id ≤ rank t.step_id := hmin t ht
          have h2 : rank d < rank m.step_id := hrank m hm d hd
          rw [hid] at h1
          exact absurd (lt_of_lt_of_le h2 h1) (lt_irrefl _)
      have hne : ¬ ((r :: rs).filter (step_ready (stepIds sorted))).isEmpty := by
        rw [List.isEmpty_iff]
        intro hnil
        have := List.filter_eq_nil_iff.mp hnil m hm
        exact this hmready
      have hgo : sort_go (n + 1) sorted (r :: rs) =
          sort_go n (sorted ++ (r :: rs).filter (step_ready (stepIds sorted)))
            ((r :: rs).filter (fun s => !(step_ready (stepIds sorted) s))) := by
        simp [sort_go, hne]
      rw [hgo]
      have hlen : ((r :: rs).filter
          (fun s => !(step_ready (stepIds sorted) s))).length < (r :: rs).length :=
        List.length_filter_lt_length_iff_exists.mpr ⟨m, hm, by simp [hmready]⟩
      refine ih _ _ (by omega) ?_ ?_
      · intro s hsmem d hd
        exact hrank s (List.mem_of_mem_filter hsmem) d hd
      · intro s hsmem d hd
        rcases hpres s (List.mem_of_mem_filter hsmem) d hd with hin | hin
        · left
          simp only [stepIds, List.map_append, List.mem_append]
          left
          simpa [stepIds] using hin
        · obtain ⟨t, ht, hid⟩ := List.mem_map.mp hin
          by_cases hrt : step_ready (stepIds sorted) t = true
          · left
            simp only [stepIds, List.map_append, List.mem_append]
            right
            exact List.mem_map.mpr ⟨t, List.mem_filter.mpr ⟨ht, hrt⟩, hid⟩
          · right
            exact List.mem_map.mpr
              ⟨t, List.mem_filter.mpr ⟨ht, by simp [hrt]⟩, hid⟩

/-- C2: for a workflow whose dependency graph is acyclic and whose
`depends_on` entries all name ids present in the list, the run order produced
by `_sort_steps_by_dependencies` never places a step before its dependencies:
every dependency id of a step occurs among the ids of strictly earlier steps
in the run order. -/
theorem C2_run_order_respects_dependencies (steps : List WorkflowStep)
    (hacyc : AcyclicSteps steps)
    (hpres : ∀ s ∈ steps, ∀ d ∈ s.depends_on, d ∈ stepIds steps) :
    ∀ pre s post, (sort_steps_by_dependencies steps).1 = pre ++ s :: post →
      ∀ d ∈ s.depends_on, d ∈ stepIds pre := by
  obtain ⟨rank, hrank⟩ := hacyc
  have hflag : (sort_go steps.length [] steps).2 = false :=
    sort_go_no_stall rank steps.length [] steps (le_refl _) hrank
      (fun s hs d hd => Or.inr (hpres s hs d hd))
  have hresp := sort_go_respects steps.length [] steps trivial hflag
  intro pre s post hdec d hd
  have := RespectsFrom.dep_in_prefix hresp
    (by simpa [sort_steps_by_dependencies] using hdec) d hd
  simpa using this

/-- Witness for C2 on the concrete two-step research workflow. -/
theorem C2_run_order_respects_dependencies_witness :
    AcyclicSteps [research_step, update_sheet_step] ∧
    (∀ s ∈ [research_step, update_sheet_step], ∀ d ∈ s.depends_on,
      d ∈ stepIds [research_step, update_sheet_step]) ∧
    "research" ∈ stepIds [research_step] := by
  have hacyc : AcyclicSteps [research_step, update_sheet_step] := by
    refine ⟨fun id => if id = "update_sheet" then 1 else 0, ?_⟩
    decide
  have hpres : ∀ s ∈ [research_step, update_sheet_step], ∀ d ∈ s.depends_on,
      d ∈ stepIds [research_step, update_sheet_step] := by decide
  refine ⟨hacyc, hpres, ?_⟩
  exact C2_run_order_respects_dependencies [research_step, update_sheet_step]
    hacyc hpres [research_step] update_sheet_step [] rfl "research" (by decide)

/-- When the sort does not stall, every referenced dependency id names a step
of the input list. -/
theorem flag_false_deps_present (steps : List WorkflowStep)
    (hflag : (sort_steps_by_dependencies steps).2 = false) :
    ∀ s ∈ steps, ∀ d ∈ s.depends_on, d ∈ stepIds steps := by
  have hresp := sort_go_respects steps.length [] steps trivial hflag
  have hperm := sort_go_perm steps.length [] steps
  intro s hs d hd
  have hsmem : s ∈ (sort_go steps.length [] steps).1 := by
    rw [hperm.mem_iff]
    simpa using hs
  obtain ⟨pre, post, hdec⟩ := List.append_of_mem hsmem
  have hdep : d ∈ stepIds pre := by
    simpa using RespectsFrom.dep_in_prefix hresp hdec d hd
  have hin : d ∈ stepIds (sort_go steps.length [] steps).1 := by
    rw [hdec]
    simp only [stepIds, List.map_append, List.mem_append]
    exact Or.inl hdep
  have := (hperm.map (fun s => s.step_id)).mem_iff.mp hin
  simpa [stepIds] using this

/-- When the sort does not stall and step ids are unique, the id-level
dependency graph is acyclic (the position in the run order is a strictly
decreasing rank along dependencies). -/
theorem flag_false_acyclic (steps : List WorkflowStep)
    (hnodup : (stepIds steps).Nodup)
    (hflag : (sort_steps_by_dependencies steps).2 = false) :
    AcyclicSteps steps := by
  have hresp := sort_go_respects steps.length [] steps trivial hflag
  have hperm := sort_go_perm steps.length [] steps
  have hperm2 : (stepIds (sort_go steps.length [] steps).1).Perm (stepIds steps) := by
    have := hperm.map (fun s => s.step_id)
    simpa [stepIds] using this
  have hnodup2 : (stepIds (sort_go steps.length [] steps).1).Nodup :=
    hperm2.nodup_iff.mpr hnodup
  refine ⟨fun d => List.indexOf d (stepIds (sort_go steps.length [] steps).1), ?_⟩
  intro s hs d hd
  have hsmem : s ∈ (sort_go steps.length [] steps).1 := by
    rw [hperm.mem_iff]
    simpa using hs
  obtain ⟨pre, post, hdec⟩ := List.append_of_mem hsmem
  have hdep : d ∈ stepIds pre := by
    simpa using RespectsFrom.dep_in_prefix hresp hdec d hd
  have hids : stepIds (sort_go steps.length [] steps).1 =
      stepIds pre ++ s.step_id :: stepIds post := by
    rw [hdec]
    simp [stepIds]
  rw [hids] at hnodup2
  have hnotin : s.step_id ∉ stepIds pre := by
    intro hin
    obtain ⟨_, _, hdisj⟩ := List.nodup_append.mp hnodup2
    exact hdisj hin (List.mem_cons_self _ _)
  have h1 : List.indexOf s.step_id
      (stepIds (sort_go steps.length [] steps).1) = (stepIds pre).length := by
    rw [hids, List.indexOf_append_of_not_mem hnotin, List.indexOf_cons_self]
    omega
  have h2 : List.indexOf d
      (stepIds (sort_go steps.length [] steps).1) < (stepIds pre).length := by
    rw [hids, List.indexOf_append_of_mem hdep]
    exact List.indexOf_lt_length.mpr hdep
  show List.indexOf d (stepIds (sort_go steps.length [] steps).1) <
    List.indexOf s.step_id (stepIds (sort_go steps.length [] steps).1)
  rw [h1]
  exact h2

/-- C3: a workflow whose dependency references are anomalous — some
`depends_on` id names no step in the list, or (with unique step ids) the
dependency graph has a cycle — still terminates: `execute_workflow` returns a
WorkflowResult covering all steps, and the sort records the
circular/missing-dependency warning. -/
theorem C3_anomalous_workflow_terminates_with_warning (steps : List WorkflowStep)
    (hanom : (∃ s ∈ steps, ∃ d ∈ s.depends_on, d ∉ stepIds steps) ∨
      ((stepIds steps).Nodup ∧ ¬ AcyclicSteps steps)) :
    (sort_steps_by_dependencies steps).2 = true ∧
    ∀ exec ai_summary,
      (execute_workflow exec ai_summary steps).total_steps = steps.length := by
  constructor
  · rcases Bool.eq_false_or_eq_true (sort_steps_by_dependencies steps).2 with ht | hf
    · exact ht
    · exfalso
      rcases hanom with ⟨s, hs, d, hd, hnot⟩ | ⟨hnodup, hnacyc⟩
      · exact hnot (flag_false_deps_present steps hf s hs d hd)
      · exact hnacyc (flag_false_acyclic steps hnodup hf)
  · intro exec ai_summary
    rfl

/-- Witness for C3 on a concrete workflow with a dangling dependency. -/
theorem C3_anomalous_workflow_witness :
    ((∃ s ∈ [dangling_step], ∃ d ∈ s.depends_on, d ∉ stepIds [dangling_step]) ∨
      ((stepIds [dangling_step]).Nodup ∧ ¬ AcyclicSteps [dangling_step])) ∧
    (sort_steps_by_dependencies [dangling_step]).2 = true ∧
    (execute_workflow (fun _ => Except.ok "r") none [dangling_step]).total_steps = 1 := by
  have hanom : (∃ s ∈ [dangling_step], ∃ d ∈ s.depends_on,
      d ∉ stepIds [dangling_step]) ∨
      ((stepIds [dangling_step]).Nodup ∧ ¬ AcyclicSteps [dangling_step]) := by
    left
    decide
  obtain ⟨h1, h2⟩ := C3_anomalous_workflow_terminates_with_warning [dangling_step] hanom
  exact ⟨hanom, h1, h2 (fun _ => Except.ok "r") none⟩

theorem containsKey_iff {m : List (String × String)} {k : String} :
    containsKey m k = true ↔ ∃ p ∈ m, p.1 = k := by
  simp [containsKey, List.any_eq_true]

theorem containsKey_dict_insert {m : List (String × String)} {k v k2 : String}
    (h : containsKey (dict_insert m k v) k2 = true) :
    containsKey m k2 = true ∨ k2 = k := by
  rw [containsKey_iff] at h
  obtain ⟨p, hp, hpk⟩ := h
  unfold dict_insert at hp
  by_cases hc : containsKey m k
  · rw [if_pos hc] at hp
    obtain ⟨q, hq, rfl⟩ := List.mem_map.mp hp
    by_cases hqk : q.1 == k
    · rw [if_pos hqk] at hpk
      exact Or.inr hpk.symm
    · rw [if_neg hqk] at hpk
      exact Or.inl (containsKey_iff.mpr ⟨q, hq, hpk⟩)
  · rw [if_neg hc] at hp
    rcases List.mem_append.mp hp with hm | hsing
    · exact Or.inl (containsKey_iff.mpr ⟨p, hm, hpk⟩)
    · simp only [List.mem_singleton] at hsing
      subst hsing
      exact Or.inr hpk.symm

/-- Keys added by one iteration of the executor loop come only from the
step's id or its output variable. -/
theorem exec_step_update_keys {exec : WorkflowStep → Except String String}
    {st : ExecState} {s : WorkflowStep} {k : String}
    (h : containsKey (exec_step_update exec st s).results k = true) :
    containsKey st.results k = true ∨ k = s.step_id ∨
      s.output_variable = some k := by
  unfold exec_step_update at h
  by_cases hmiss : (!s.depends_on.isEmpty &&
      !(s.depends_on.filter (fun d => !(containsKey st.results d))).isEmpty)
  · rw [if_pos hmiss] at h
    exact Or.inl h
  · rw [if_neg hmiss] at h
    rcases hex : exec s with e | v <;> rw [hex] at h
    · exact Or.inl h
    · rcases hov : s.output_variable with _ | ov <;> simp only [hov] at h
      · rcases containsKey_dict_insert h with h1 | h1
        · exact Or.inl h1
        · exact Or.inr (Or.inl h1)
      · rcases containsKey_dict_insert h with h1 | h1
        · rcases containsKey_dict_insert h1 with h2 | h2
          · exact Or.inl h2
          · exact Or.inr (Or.inl h2)
        · exact Or.inr (Or.inr (by rw [h1]))

theorem exec_loop_append (exec : WorkflowStep → Except String String)
    (l1 l2 : List WorkflowStep) :
    ∀ st, exec_loop exec st (l1 ++ l2) = exec_loop exec (exec_loop exec st l1) l2 := by
  induction l1 with
  | nil => intro st; rfl
  | cons s rest ih => intro st; simp only [List.cons_append, exec_loop]; exact ih _

/-- Errors only accumulate along the executor loop. -/
theorem exec_loop_errors_mono (exec : WorkflowStep → Except String String)
    (l : List WorkflowStep) :
    ∀ st, ∃ tail, (exec_loop exec st l).errors = st.errors ++ tail := by
  induction l with
  | nil => exact fun st => ⟨[], (List.append_nil _).symm⟩
  | cons s rest ih =>
    intro st
    obtain ⟨tail, htail⟩ := ih (exec_step_update exec st s)
    have hstep : ∃ t, (exec_step_update exec st s).errors = st.errors ++ t := by
      unfold exec_step_update
      by_cases hmiss : (!s.depends_on.isEmpty &&
          !(s.depends_on.filter (fun d => !(containsKey st.results d))).isEmpty)
      · rw [if_pos hmiss]
        exact ⟨_, rfl⟩
      · rw [if_neg hmiss]
        rcases hex : exec s with e | v
        · exact ⟨[step_error_msg s e], rfl⟩
        · exact ⟨[], (List.append_nil _).symm⟩
    obtain ⟨t, ht⟩ := hstep
    refine ⟨t ++ tail, ?_⟩
    rw [exec_loop, htail, ht, List.append_assoc]

/-- Keys in the executor's results dict come only from the initial state, the
step ids, or the declared output variables of the executed steps. -/
theorem exec_loop_keys (exec : WorkflowStep → Except String String)
    (l : List WorkflowStep) :
    ∀ st k, containsKey (exec_loop exec st l).results k = true →
      containsKey st.results k = true ∨ k ∈ stepIds l ∨ k ∈ outVars l := by
  induction l with
  | nil => intro st k h; exact Or.inl h
  | cons s rest ih =>
    intro st k h
    rcases ih _ k h with h1 | h2 | h3
    · rcases exec_step_update_keys h1 with ha | hb | hc
      · exact Or.inl ha
      · subst hb
        exact Or.inr (Or.inl (by simp [stepIds]))
      · exact Or.inr (Or.inr (List.mem_filterMap.mpr ⟨s, List.mem_cons_self _ _, hc⟩))
    · refine Or.inr (Or.inl ?_)
      simp only [stepIds, List.map_cons, List.mem_cons]
      exact Or.inr (by simpa [stepIds] using h2)
    · refine Or.inr (Or.inr ?_)
      obtain ⟨t, ht, hts⟩ := List.mem_filterMap.mp h3
      exact List.mem_filterMap.mpr ⟨t, List.mem_cons_of_mem _ ht, hts⟩

/-- C5: when an eligible step's execution raises, the executor appends the
formatted error string, leaves no results entry under that step's id (given
unique ids and no output variable shadowing it), continues with the remaining
steps from exactly that state (no abort, no retry), and the returned
WorkflowResult succeeds iff the errors list is empty. -/
theorem C5_step_failure_best_effort (exec : WorkflowStep → Except String String)
    (ai_summary : Option String) (steps pre post : List WorkflowStep)
    (s : WorkflowStep) (e : String)
    (hsorted : (sort_steps_by_dependencies steps).1 = pre ++ s :: post)
    (hdeps : s.depends_on.all
      (fun d => containsKey (exec_loop exec ⟨[], [], 0⟩ pre).results d) = true)
    (hfail : exec s = Except.error e)
    (hnodup : (stepIds steps).Nodup)
    (hov : ∀ t ∈ steps, t.output_variable ≠ some s.step_id) :
    (exec_loop exec ⟨[], [], 0⟩ (sort_steps_by_dependencies steps).1 =
      exec_loop exec
        ⟨(exec_loop exec ⟨[], [], 0⟩ pre).results,
         (exec_loop exec ⟨[], [], 0⟩ pre).errors ++ [step_error_msg s e],
         (exec_loop exec ⟨[], [], 0⟩ pre).completed⟩ post) ∧
    step_error_msg s e ∈ (execute_workflow exec ai_summary steps).errors ∧
    containsKey (execute_workflow exec ai_summary steps).results s.step_id = false ∧
    ((execute_workflow exec ai_summary steps).success = true ↔
      (execute_workflow exec ai_summary steps).errors = []) := by
  have hmissing : s.depends_on.filter
      (fun d => !(containsKey (exec_loop exec ⟨[], [], 0⟩ pre).results d)) = [] := by
    rw [List.filter_eq_nil_iff]
    intro d hd
    have := List.all_eq_true.mp hdeps d hd
    simp [this]
  have hstep : exec_step_update exec (exec_loop exec ⟨[], [], 0⟩ pre) s =
      ⟨(exec_loop exec ⟨[], [], 0⟩ pre).results,
       (exec_loop exec ⟨[], [], 0⟩ pre).errors ++ [step_error_msg s e],
       (exec_loop exec ⟨[], [], 0⟩ pre).completed⟩ := by
    unfold exec_step_update
    rw [hmissing]
    simp only [List.isEmpty_nil, Bool.not_true, Bool.and_false, hfail]
    rfl
  have hloop : exec_loop exec ⟨[], [], 0⟩ (sort_steps_by_dependencies steps).1 =
      exec_loop exec
        ⟨(exec_loop exec ⟨[], [], 0⟩ pre).results,
         (exec_loop exec ⟨[], [], 0⟩ pre).errors ++ [step_error_msg s e],
         (exec_loop exec ⟨[], [], 0⟩ pre).completed⟩ post := by
    rw [hsorted, exec_loop_append, exec_loop, hstep]
  have hperm := sort_go_perm steps.length [] steps
  have hmem_steps : ∀ t, t ∈ pre ∨ t ∈ post → t ∈ steps := by
    intro t ht
    have : t ∈ (sort_steps_by_dependencies steps).1 := by
      rw [hsorted, List.mem_append, List.mem_cons]
      tauto
    have h2 := hperm.mem_iff.mp (by simpa [sort_steps_by_dependencies] using this)
    simpa using h2
  have hids : stepIds (sort_steps_by_dependencies steps).1 =
      stepIds pre ++ s.step_id :: stepIds post := by
    rw [hsorted]
    simp [stepIds]
  have hnodup2 : (stepIds pre ++ s.step_id :: stepIds post).Nodup := by
    rw [← hids]
    have : (stepIds (sort_steps_by_dependencies steps).1).Perm (stepIds steps) := by
      have := hperm.map (fun t => t.step_id)
      simpa [stepIds, sort_steps_by_dependencies] using this
    exact this.nodup_iff.mpr hnodup
  have hid_pre : s.step_id ∉ stepIds pre := by
    intro hin
    obtain ⟨_, _, hdisj⟩ := List.nodup_append.mp hnodup2
    exact hdisj hin (List.mem_cons_self _ _)
  have hid_post : s.step_id ∉ stepIds post := by
    intro hin
    obtain ⟨_, hcons, _⟩ := List.nodup_append.mp hnodup2
    exact (List.nodup_cons.mp hcons).1 hin
  have hkey : containsKey
      (exec_loop exec ⟨[], [], 0⟩ (sort_steps_by_dependencies steps).1).results
        s.step_id = false := by
    rcases Bool.eq_false_or_eq_true (containsKey
      (exec_loop exec ⟨[], [], 0⟩ (sort_steps_by_dependencies steps).1).results
        s.step_id) with ht | hf
    swap
    · exact hf
    · exfalso
      rw [hloop] at ht
      rcases exec_loop_keys exec post _ s.step_id ht with h1 | h2 | h3
      · rcases exec_loop_keys exec pre _ s.step_id h1 with g1 | g2 | g3
        · simp [containsKey] at g1
        · exact hid_pre g2
        · obtain ⟨t, ht2, hts⟩ := List.mem_filterMap.mp g3
          exact hov t (hmem_steps t (Or.inl ht2)) hts
      · exact hid_post h2
      · obtain ⟨t, ht2, hts⟩ := List.mem_filterMap.mp h3
        exact hov t (hmem_steps t (Or.inr ht2)) hts
  have herr : step_error_msg s e ∈
      (exec_loop exec ⟨[], [], 0⟩ (sort_steps_by_dependencies steps).1).errors := by
    rw [hloop]
    obtain ⟨tail, htail⟩ := exec_loop_errors_mono exec post
      ⟨(exec_loop exec ⟨[], [], 0⟩ pre).results,
       (exec_loop exec ⟨[], [], 0⟩ pre).errors ++ [step_error_msg s e],
       (exec_loop exec ⟨[], [], 0⟩ pre).completed⟩
    rw [htail]
    simp
  refine ⟨hloop, ?_, ?_, ?_⟩
  · simpa [execute_workflow] using herr
  · simpa [execute_workflow] using hkey
  · simp only [execute_workflow]
    exact List.isEmpty_iff

/-- Witness for C5 on a two-step workflow whose second step raises. -/
theorem C5_step_failure_best_effort_witness :
    ((sort_steps_by_dependencies [ok_step, failing_step]).1 =
      [ok_step] ++ failing_step :: []) ∧
    (demo_exec failing_step = Except.error "boom") ∧
    step_error_msg failing_step "boom" ∈
      (execute_workflow demo_exec none [ok_step, failing_step]).errors ∧
    containsKey (execute_workflow demo_exec none [ok_step, failing_step]).results
      "b" = false ∧
    ((execute_workflow demo_exec none [ok_step, failing_step]).success = true ↔
      (execute_workflow demo_exec none [ok_step, failing_step]).errors = []) := by
  obtain ⟨h1, h2, h3, h4⟩ := C5_step_failure_best_effort demo_exec none
    [ok_step, failing_step] [ok_step] [] failing_step "boom"
    (by decide) (by decide) rfl (by decide) (by decide)
  exact ⟨by decide, rfl, h2, h3, h4⟩

/-- C8, evaluated at the failing input: the parser numbers steps by the line
index in `enumerate(lines)` (src/agents/workflow_manager.py lines 516, 526,
531), so when a non-STEP preamble line precedes "STEP 1", the single parsed
step is named "step_2" and depends on "step_1" — an id that names no step in
the returned list, contrary to the strictly-linear-dependency contract. -/
theorem C8_line_indexed_dependency_dangles :
    parse_ai_workflow_response "Here is the plan:\nSTEP 1: WebSearch - find info" "q" =
      [{ step_id := "step_2", step_type := WorkflowStepType.tool_execution,
         tool_name := "WebSearch", action := "find info",
         parameters := [("query", "q")], depends_on := ["step_1"],
         condition := none, output_variable := none }] ∧
    "step_1" ∉ stepIds (parse_ai_workflow_response
      "Here is the plan:\nSTEP 1: WebSearch - find info" "q") := by
  constructor
  · decide
  · decide

/-- C9 counterexample: on the single-message-"hello" conversation, the topic
list is `["General"]` — the keyword-table label of line 320 of
src/utils/conversation_memory.py — and does not contain
"General conversation", which is only appended when no keyword matches
(line 329). -/
theorem C9_counterexample_topics_label :
    (analyze_conversation hello_mem "u").topics = some ["General"] ∧
    "General conversation" ∉ ["General"] := by
  constructor
  · decide
  · decide

/-- C9 amended: on a conversation containing exactly the one message "hello",
`analyze_conversation` reports has_conversation = true, a topics list
containing "General" (not "General conversation"), and a non-empty insights
list. -/
theorem C9_single_hello_analysis :
    (analyze_conversation hello_mem "u").has_conversation = true ∧
    "General" ∈ ((analyze_conversation hello_mem "u").topics.getD []) ∧
    ((analyze_conversation hello_mem "u").insights.getD []) ≠ [] := by
  refine ⟨by decide, by decide, by decide⟩

theorem find_store_aux (uid : String) (c : Conversation) :
    ∀ l : List (String × Conversation), (∃ p ∈ l, p.1 = uid) →
      (l.map (fun r => if r.1 == uid then (uid, c) else r)).find?
        (fun r => r.1 == uid) = some (uid, c) := by
  intro l
  induction l with
  | nil => rintro ⟨p, hp, _⟩; cases hp
  | cons p rest ih =>
    rintro ⟨q, hq, hquid⟩
    by_cases hp : (p.1 == uid) = true
    · rw [List.map_cons, if_pos hp]
      have : List.find? (fun r : String × Conversation => r.1 == uid)
          ((uid, c) :: rest.map (fun r => if r.1 == uid then (uid, c) else r)) =
          some (uid, c) :=
        List.find?_cons_of_pos _ (by simp)
      exact this
    · rw [List.map_cons, if_neg hp]
      have hstep : List.find? (fun r : String × Conversation => r.1 == uid)
          (p :: rest.map (fun r => if r.1 == uid then (uid, c) else r)) =
          List.find? (fun r : String × Conversation => r.1 == uid)
            (rest.map (fun r => if r.1 == uid then (uid, c) else r)) :=
        List.find?_cons_of_neg _ hp
      rw [hstep]
      refine ih ⟨q, ?_, hquid⟩
      rcases List.mem_cons.mp hq with rfl | hmem
      · exact absurd (by simp [hquid]) hp
      · exact hmem

/-- Updating a stored conversation is visible to the next lookup, provided
the user has an entry. -/
theorem lookup_store (mem : ConversationMemory) (uid : String) (c : Conversation)
    (h : ∃ p ∈ mem.conversations, p.1 = uid) :
    lookup_conversation (store_conversation mem uid c) uid = some c := by
  unfold lookup_conversation store_conversation
  rw [find_store_aux uid c mem.conversations h]
  rfl

/-- Filtering a timestamp-sorted message list by `cutoff < timestamp` removes
a prefix: the result is a suffix (`drop`) of the list. -/
theorem filter_ts_gt_eq_drop (cutoff : Int) :
    ∀ l : List Message, l.Pairwise (fun a b => a.timestamp ≤ b.timestamp) →
      ∃ k, l.filter (fun m => decide (cutoff < m.timestamp)) = l.drop k := by
  intro l
  induction l with
  | nil => exact fun _ => ⟨0, rfl⟩
  | cons m rest ih =>
    intro hp
    obtain ⟨hall, hrest⟩ := List.pairwise_cons.mp hp
    by_cases hm : cutoff < m.timestamp
    · refine ⟨0, ?_⟩
      rw [List.drop_zero]
      have hcond : (fun m : Message => decide (cutoff < m.timestamp)) m = true := by
        simpa using hm
      rw [List.filter_cons, if_pos hcond]
      congr 1
      rw [List.filter_eq_self]
      intro b hb
      simpa using lt_of_lt_of_le hm (hall b hb)
    · obtain ⟨k, hk⟩ := ih hrest
      refine ⟨k + 1, ?_⟩
      have hcond : ¬ ((fun m : Message => decide (cutoff < m.timestamp)) m = true) := by
        simpa using hm
      rw [List.filter_cons, if_neg hcond, hk, List.drop_succ_cons]

/-- The combined effect of one append plus `_cleanup_conversation`: the
stored message list is a suffix of the old list with the new message
appended, and its length never exceeds a positive cap. -/
theorem cleanup_add_spec (cap : Nat) (c : Conversation) (role content : String)
    (now : Int) (hcap : 0 < cap)
    (hpair : c.messages.Pairwise (fun a b => a.timestamp ≤ b.timestamp))
    (hnow : ∀ m ∈ c.messages, m.timestamp ≤ now) :
    ∃ k,
      (cleanup_conversation cap (c.add_message role content now) now).messages =
        (c.messages ++ [(⟨role, content, now, c.user_id⟩ : Message)]).drop k ∧
      (cleanup_conversation cap (c.add_message role content now) now).messages.length
        ≤ cap := by
  have hA : (c.add_message role content now).messages =
      c.messages ++ [(⟨role, content, now, c.user_id⟩ : Message)] := rfl
  have hpairA : (c.messages ++
      [(⟨role, content, now, c.user_id⟩ : Message)]).Pairwise
      (fun a b => a.timestamp ≤ b.timestamp) := by
    rw [List.pairwise_append]
    refine ⟨hpair, List.pairwise_singleton _ _, ?_⟩
    intro a ha b hb
    simp only [List.mem_singleton] at hb
    subst hb
    exact hnow a ha
  have hmain : ∀ j, (cleanup_conversation cap (c.add_message role content now)
        now).messages = ((c.messages ++
          [(⟨role, content, now, c.user_id⟩ : Message)]).drop j).filter
          (fun m => decide (now - 24 * 3600 < m.timestamp)) →
      ∃ k, (cleanup_conversation cap (c.add_message role content now)
        now).messages = (c.messages ++
          [(⟨role, content, now, c.user_id⟩ : Message)]).drop k := by
    intro j hj
    have hpairD := List.Pairwise.sublist (List.drop_sublist j _) hpairA
    obtain ⟨k2, hk2⟩ := filter_ts_gt_eq_drop (now - 24 * 3600) _ hpairD
    refine ⟨j + k2, ?_⟩
    rw [hj, hk2, List.drop_drop, Nat.add_comm]
  by_cases hlen : (c.messages ++
      [(⟨role, content, now, c.user_id⟩ : Message)]).length > cap
  · have htrim : (cleanup_conversation cap (c.add_message role content now)
        now).messages = ((c.messages ++
          [(⟨role, content, now, c.user_id⟩ : Message)]).drop
            ((c.messages ++
              [(⟨role, content, now, c.user_id⟩ : Message)]).length - cap)).filter
          (fun m => decide (now - 24 * 3600 < m.timestamp)) := by
      unfold cleanup_conversation Conversation.clear_old_messages
      simp only [hA]
      rw [if_pos hlen, if_neg (Nat.pos_iff_ne_zero.mp hcap)]
    obtain ⟨k, hk⟩ := hmain _ htrim
    refine ⟨k, hk, ?_⟩
    have hsub := (List.filter_sublist (p := fun m : Message =>
      decide (now - 24 * 3600 < m.timestamp))
      ((c.messages ++ [(⟨role, content, now, c.user_id⟩ : Message)]).drop
          ((c.messages ++
            [(⟨role, content, now, c.user_id⟩ : Message)]).length - cap))).length_le
    rw [htrim]
    rw [List.length_drop] at hsub
    omega
  · have htrim : (cleanup_conversation cap (c.add_message role content now)
        now).messages = (c.messages ++
          [(⟨role, content, now, c.user_id⟩ : Message)]).filter
          (fun m => decide (now - 24 * 3600 < m.timestamp)) := by
      unfold cleanup_conversation Conversation.clear_old_messages
      simp only [hA]
      rw [if_neg hlen]
    obtain ⟨k, hk⟩ := hmain 0 (by rw [htrim, List.drop_zero])
    refine ⟨k, hk, ?_⟩
    have hsub := (List.filter_sublist (p := fun m : Message =>
      decide (now - 24 * 3600 < m.timestamp))
      (c.messages ++ [(⟨role, content, now, c.user_id⟩ : Message)])).length_le
    rw [htrim]
    omega

/-- C6 amended: for a positive per-conversation cap — whose constructor
default is 100, not 50 (the orchestrator passes 50 explicitly) — every
`add_user_message` call leaves the user's message list no longer than the
cap, keeping a suffix of the appended history: the most recent messages by
timestamp, since every evicted message is no newer than every retained one. -/
theorem C6_add_message_bounded_keeps_recent (mem : ConversationMemory)
    (uid msg : String) (now : Int)
    (hcap : 0 < mem.max_messages_per_conversation)
    (hpair : (user_messages mem uid).Pairwise
      (fun a b => a.timestamp ≤ b.timestamp))
    (hnow : ∀ m ∈ user_messages mem uid, m.timestamp ≤ now) :
    (user_messages (add_user_message mem uid msg now) uid).length ≤
      mem.max_messages_per_conversation ∧
    ∃ w k, w.role = "user" ∧ w.content = msg ∧ w.timestamp = now ∧
      user_messages (add_user_message mem uid msg now) uid =
        (user_messages mem uid ++ [w]).drop k ∧
      ∀ m1 ∈ (user_messages mem uid ++ [w]).take k,
        ∀ m2 ∈ user_messages (add_user_message mem uid msg now) uid,
          m1.timestamp ≤ m2.timestamp := by
  rcases hlook : lookup_conversation mem uid with _ | c
  · -- no existing conversation: the fresh conversation starts empty
    have hprior : user_messages mem uid = [] := by
      unfold user_messages
      rw [hlook]
    have hconv : get_or_create_conversation mem uid now =
        ({ mem with conversations :=
            mem.conversations ++ [(uid, (⟨uid, [], now, now⟩ : Conversation))] },
         (⟨uid, [], now, now⟩ : Conversation)) := by
      unfold get_or_create_conversation
      rw [hlook]
    have hkeyed : ∃ p ∈ mem.conversations ++
        [(uid, (⟨uid, [], now, now⟩ : Conversation))], p.1 = uid :=
      ⟨(uid, ⟨uid, [], now, now⟩), by simp, rfl⟩
    have hpost : user_messages (add_user_message mem uid msg now) uid =
        (cleanup_conversation mem.max_messages_per_conversation
          (Conversation.add_message ⟨uid, [], now, now⟩ "user" msg now)
          now).messages := by
      unfold add_user_message
      rw [hconv]
      unfold user_messages
      rw [lookup_store _ uid _ hkeyed]
    obtain ⟨k, hk, hlen⟩ := cleanup_add_spec mem.max_messages_per_conversation
      ⟨uid, [], now, now⟩ "user" msg now hcap (by simp) (by simp)
    have hA : ((⟨uid, [], now, now⟩ : Conversation).messages ++
        [(⟨"user", msg, now,
          (⟨uid, [], now, now⟩ : Conversation).user_id⟩ : Message)]) =
        ([] ++ [(⟨"user", msg, now, uid⟩ : Message)]) := rfl
    rw [hA] at hk
    rw [hpost, hprior]
    constructor
    · exact hlen
    · refine ⟨⟨"user", msg, now, uid⟩, k, rfl, rfl, rfl, hk, ?_⟩
      intro m1 hm1 m2 hm2
      rw [hk] at hm2
      have hpairA : (([] : List Message) ++
          [(⟨"user", msg, now, uid⟩ : Message)]).Pairwise
          (fun a b => a.timestamp ≤ b.timestamp) := by
        simp
      have hsplit := List.take_append_drop k
        (([] : List Message) ++ [(⟨"user", msg, now, uid⟩ : Message)])
      rw [← hsplit] at hpairA
      obtain ⟨_, _, hcross⟩ := List.pairwise_append.mp hpairA
      exact hcross m1 hm1 m2 hm2
  · -- existing conversation c
    have hprior : user_messages mem uid = c.messages := by
      unfold user_messages
      rw [hlook]
    have hconv : get_or_create_conversation mem uid now = (mem, c) := by
      unfold get_or_create_conversation
      rw [hlook]
    have hkeyed : ∃ p ∈ mem.conversations, p.1 = uid := by
      unfold lookup_conversation at hlook
      rcases hf : mem.conversations.find? (fun p => p.1 == uid) with _ | p
      · rw [hf] at hlook; cases hlook
      · have hmem := List.mem_of_find?_eq_some hf
        have hpred := List.find?_some hf
        exact ⟨p, hmem, by simpa using hpred⟩
    have hpost : user_messages (add_user_message mem uid msg now) uid =
        (cleanup_conversation mem.max_messages_per_conversation
          (c.add_message "user" msg now) now).messages := by
      unfold add_user_message
      rw [hconv]
      unfold user_messages
      rw [lookup_store _ uid _ hkeyed]
    have hpairc : c.messages.Pairwise (fun a b => a.timestamp ≤ b.timestamp) := by
      rw [hprior] at hpair; exact hpair
    have hnowc : ∀ m ∈ c.messages, m.timestamp ≤ now := by
      rw [hprior] at hnow; exact hnow
    obtain ⟨k, hk, hlen⟩ := cleanup_add_spec mem.max_messages_per_conversation
      c "user" msg now hcap hpairc hnowc
    rw [hpost, hprior]
    constructor
    · exact hlen
    · refine ⟨⟨"user", msg, now, c.user_id⟩, k, rfl, rfl, rfl, hk, ?_⟩
      intro m1 hm1 m2 hm2
      rw [hk] at hm2
      have hpairA : (c.messages ++
          [(⟨"user", msg, now, c.user_id⟩ : Message)]).Pairwise
          (fun a b => a.timestamp ≤ b.timestamp) := by
        rw [List.pairwise_append]
        refine ⟨hpairc, List.pairwise_singleton _ _, ?_⟩
        intro a ha b hb
        simp only [List.mem_singleton] at hb
        subst hb
        exact hnowc a ha
      have hsplit := List.take_append_drop k
        (c.messages ++ [(⟨"user", msg, now, c.user_id⟩ : Message)])
      rw [← hsplit] at hpairA
      obtain ⟨_, _, hcross⟩ := List.pairwise_append.mp hpairA
      exact hcross m1 hm1 m2 hm2

set_option maxRecDepth 4000 in
/-- C6 counterexample to the claimed default cap of 50: the constructor
default (src/utils/conversation_memory.py line 67) is 100, so a
default-constructed store retains all 51 messages after 51 consecutive adds,
exceeding 50. -/
theorem C6_counterexample_default_cap_not_50 :
    mkConversationMemory.max_messages_per_conversation = 100 ∧
    (user_messages (add_n_hello 51) "u").length = 51 := by
  constructor
  · rfl
  · decide

/-- Witness for the amended C6 at a concrete store already at its cap of 2. -/
theorem C6_add_message_bounded_witness :
    0 < demo_mem.max_messages_per_conversation ∧
    (user_messages (add_user_message demo_mem "u" "c" 3) "u").length ≤
      demo_mem.max_messages_per_conversation ∧
    (∃ w k, w.role = "user" ∧ w.content = "c" ∧ w.timestamp = 3 ∧
      user_messages (add_user_message demo_mem "u" "c" 3) "u" =
        (user_messages demo_mem "u" ++ [w]).drop k ∧
      ∀ m1 ∈ (user_messages demo_mem "u" ++ [w]).take k,
        ∀ m2 ∈ user_messages (add_user_message demo_mem "u" "c" 3) "u",
          m1.timestamp ≤ m2.timestamp) := by
  have h := C6_add_message_bounded_keeps_recent demo_mem "u" "c" 3
    (by decide) (by decide) (by decide)
  exact ⟨by decide, h.1, h.2⟩

/-- C7 counterexample: when the echoed result triggers the retry, the
retry's own output is only compared against the rephrased prompt
(src/agents/intelligent_agent.py line 313), not against the original echo —
so a model response equal to the echo (and already carrying one of the known
emojis, line 621) is returned verbatim, and `process_message` ends up
returning exactly the case-normalized input. -/
theorem C7_counterexample_echo_returned :
    process_message_validate "hi 😊" "hi 😊" true (LlmOutcome.text "hi 😊") =
      pyLower (pyStrip "hi 😊") := by
  decide

/-- C7 amended: a handling-path result equal to the case-normalized input
triggers exactly one re-attempt through the direct-language-model branch with
the prompt rephrased as "Please help me understand: ...", and the final
returned string is that re-attempt's output (which is not itself re-checked
against the echo). -/
theorem C7_echo_triggers_retry (cleaned result : String) (quota_ok : Bool)
    (llm : LlmOutcome)
    (hres : pyStrip result ≠ "")
    (hecho : pyLower (pyStrip result) = pyLower cleaned) :
    process_message_validate cleaned result quota_ok llm =
      handle_general_query quota_ok llm
        ("Please help me understand: " ++ cleaned) := by
  unfold process_message_validate
  have h1 : (pyStrip result == "") = false := by
    simpa using hres
  have h2 : (pyLower (pyStrip result) == pyLower cleaned) = true := by
    simpa using hecho
  simp [h1, h2]

/-- Witness for the amended C7 at a concrete echoed turn. -/
theorem C7_echo_triggers_retry_witness :
    pyStrip " PING " ≠ "" ∧
    pyLower (pyStrip " PING ") = pyLower "ping" ∧
    process_message_validate "ping" " PING " false LlmOutcome.empty =
      handle_general_query false LlmOutcome.empty
        ("Please help me understand: " ++ "ping") := by
  refine ⟨by decide, by decide, ?_⟩
  exact C7_echo_triggers_retry "ping" " PING " false LlmOutcome.empty
    (by decide) (by decide)

end ModuMentor
